import Mathlib

/-!
Shallow embedding of the Zuddbot Telegram bot (src/main.py): the lecture
catalog, the membership verifier, the /start handler's user-directory
insertion, and the broadcast/forward engine with its cooperative
cancellation flag, progress edits, and per-recipient fault isolation.
Platform calls (message sends, chat lookups) are abstracted as outcome
parameters; all counting, branching and state transitions follow the
Python source line by line.
-/

namespace Zuddbot

/-! ### Python string primitives

`main.py` manipulates command names with `str.lower()`, `str.strip()`,
`str.startswith('/')`, slicing `[1:]` and `str.isalpha()`.  We model each
over the character list of a Lean `String`. -/

/-- Python `str.lower()` restricted to ASCII letters, which is exactly what
the bot's command names go through (`Char.toLower` lowers `A`–`Z` and leaves
every other character unchanged, matching CPython on ASCII input). -/
def pyLower (s : String) : String := ⟨s.data.map Char.toLower⟩

/-- Strip leading and trailing whitespace from a character list
(Python `str.strip()`). -/
def stripChars (l : List Char) : List Char :=
  ((l.dropWhile Char.isWhitespace).reverse.dropWhile Char.isWhitespace).reverse

/-- Python `str.strip()`. -/
def pyStrip (s : String) : String := ⟨stripChars s.data⟩

/-- Python `str.isalpha()`: nonempty and every character a letter. -/
def pyIsAlpha (s : String) : Bool := !s.data.isEmpty && s.data.all Char.isAlpha

/-- `main.py:433-434`: `if command_name.startswith('/'): command_name = command_name[1:]`. -/
def stripLeadingSlash (s : String) : String :=
  if s.data.head? = some '/' then ⟨s.data.tail⟩ else s

/-- The name-normalisation pipeline of `add_lecture` (`main.py:426,433-434`):
`context.args[0].lower().strip()` followed by the leading-slash strip. -/
def normalizeAddName (raw : String) : String :=
  stripLeadingSlash (pyStrip (pyLower raw))

/-! ### Lecture Catalog (`custom_commands_collection`)

One record per command name; the MongoDB collection has a unique index on
`command`.  `update_one(..., upsert=True)` replaces the (first) matching
document or inserts; `delete_one` removes the first matching document and
reports `deleted_count`. -/

/-- A document of `custom_commands_collection`. -/
structure LectureCmd where
  command : String
  link : String
  description : String
deriving DecidableEq, Repr

/-- `update_one({"command": n}, {"$set": {link, description}}, upsert=True)`:
replace the first record keyed `n`, or append a fresh one. -/
def upsertCmd : List LectureCmd → String → String → String → List LectureCmd
  | [], n, l, d => [⟨n, l, d⟩]
  | e :: rest, n, l, d =>
    if e.command = n then ⟨n, l, d⟩ :: rest
    else e :: upsertCmd rest n l d

/-- `find_one({"command": n})`. -/
def findCmd (cat : List LectureCmd) (n : String) : Option LectureCmd :=
  cat.find? (fun e => e.command == n)

/-- `delete_one({"command": n})`: remove the first record keyed `n` and
return the new catalog together with `deleted_count`. -/
def deleteCmd : List LectureCmd → String → List LectureCmd × Nat
  | [], _ => ([], 0)
  | e :: rest, n =>
    if e.command = n then (rest, 1)
    else
      let r := deleteCmd rest n
      (e :: r.1, r.2)

/-- Replies `add_lecture` can issue (`main.py:408-461`). -/
inductive AddReply
  | ownerOnly
  | usage
  | invalidName
  | added (command link description : String)
deriving DecidableEq, Repr

/-- The `add_lecture` handler (`main.py:408-457`), after the `@restricted`
gate: owner check, arity check, name normalisation and validation, then the
upsert.  `args` models `context.args` (whitespace-split tokens). -/
def add_lecture (cat : List LectureCmd) (isOwner : Bool) (args : List String) :
    List LectureCmd × AddReply :=
  if !isOwner then (cat, .ownerOnly)
  else if args.length < 3 then (cat, .usage)
  else if !pyIsAlpha (normalizeAddName (args.getD 0 "")) then (cat, .invalidName)
  else
    (upsertCmd cat (normalizeAddName (args.getD 0 "")) (pyStrip (args.getD 1 ""))
        (" ".intercalate (args.drop 2)),
     .added (normalizeAddName (args.getD 0 "")) (pyStrip (args.getD 1 ""))
        (" ".intercalate (args.drop 2)))

/-- Replies `remove_lecture` can issue (`main.py:465-493`). -/
inductive RemoveReply
  | ownerOnly
  | usage
  | removed (command : String)
  | notFound (command : String)
deriving DecidableEq, Repr

/-- The `remove_lecture` handler (`main.py:465-493`): owner check, arity
check, `args[0].lower().strip()` (no slash strip here), `delete_one`, and a
reply depending on `deleted_count`. -/
def remove_lecture (cat : List LectureCmd) (isOwner : Bool) (args : List String) :
    List LectureCmd × RemoveReply :=
  if !isOwner then (cat, .ownerOnly)
  else
    match args with
    | [] => (cat, .usage)
    | a0 :: _ =>
      if (deleteCmd cat (pyStrip (pyLower a0))).2 > 0 then
        ((deleteCmd cat (pyStrip (pyLower a0))).1, .removed (pyStrip (pyLower a0)))
      else ((deleteCmd cat (pyStrip (pyLower a0))).1, .notFound (pyStrip (pyLower a0)))

/-! ### Membership Verifier (`check_membership`, `check_all_memberships`) -/

/-- Statuses treated as "present" (`main.py:123,134`). -/
def memberStatuses : List String := ["member", "administrator", "creator", "restricted"]

/-- `status in ['member', 'administrator', 'creator', 'restricted']`. -/
def statusIsMember (s : String) : Bool := memberStatuses.contains s

/-- Outcome of one two-step lookup attempt inside `check_membership`:
the direct `get_chat_member` succeeds with a status, or it raises and the
resolve-chat fallback succeeds with a status, or both raise. -/
inductive LookupOutcome
  | primaryOk (status : String)
  | fallbackOk (status : String)
  | bothFail
deriving DecidableEq, Repr

/-- `max_retries = 3` (`main.py:112`). -/
def maxRetries : Nat := 3

/-- The retry loop of `check_membership` (`main.py:113-150`): `i` is the
current attempt index, the second argument the remaining iterations of
`range(max_retries)`.  A successful primary or fallback lookup returns the
status test immediately; a doubly-failed attempt returns `false` on the last
attempt and otherwise retries after the fixed delay. -/
def checkMembershipFrom (att : Nat → LookupOutcome) : Nat → Nat → Bool
  | _, 0 => false
  | i, rem + 1 =>
    match att i with
    | .primaryOk s => statusIsMember s
    | .fallbackOk s => statusIsMember s
    | .bothFail =>
      if i = maxRetries - 1 then false
      else checkMembershipFrom att (i + 1) rem

/-- `check_membership(user_id, context, chat_id)` (`main.py:110-150`), with
the platform's answers per attempt supplied by `att`. -/
def check_membership (att : Nat → LookupOutcome) : Bool :=
  checkMembershipFrom att 0 maxRetries

/-- `check_all_memberships(user_id, context)` (`main.py:152-169`).
`channelId`/`groupId` are the stripped `CHANNEL_ID`/`GROUP_ID` environment
values (Python-falsy iff empty); `member c` is the `check_membership` result
for chat `c`.  Returns the verdict together with the list of chats actually
looked up. -/
def check_all_memberships (channelId groupId : String) (member : String → Bool) :
    Bool × List String :=
  if channelId = "" ∧ groupId = "" then (true, [])
  else
    let results : List Bool :=
      (if channelId ≠ "" then [member channelId] else []) ++
      (if groupId ≠ "" then [member groupId] else [])
    let lookups : List String :=
      (if channelId ≠ "" then [channelId] else []) ++
      (if groupId ≠ "" then [groupId] else [])
    (results.all id, lookups)

/-! ### Broadcast/Forward Engine (`run_broadcast`, `main.py:596-761`)

The engine iterates the user directory; before each per-user delivery it
reads the cooperative `broadcast_cancelled` flag.  A delivery attempt has
one of three outcomes, matching the two exception routes of the source:

* `sent` — the platform call succeeded (`success_count += 1`);
* `sendFail` — the call raised inside `send_to_user` (`main.py:617-623`),
  which swallows the exception and returns `False` (`failed_count += 1`,
  and control still reaches the every-10 progress check);
* `raised` — the call raised past `send_to_user`, i.e. a forward-mode or
  fallback `forward_message` failure, caught by the per-user handler at
  `main.py:743-745` (`failed_count += 1`, the progress check is skipped).

Progress edits (`main.py:731-738`) and the final/cancel report edits are
modelled as reliable; the flag an unhandled exception in the final report
would set is the `finalEditRaises` parameter of `run_broadcast`. -/

/-- Outcome of one per-user delivery attempt. -/
inductive AttemptResult
  | sent
  | sendFail
  | raised
deriving DecidableEq, Repr

/-- The loop-local counters of `run_broadcast` plus the in-place progress
edits issued so far, each recorded as a `(success_count, failed_count)`
snapshot. -/
structure LoopAcc where
  success : Nat
  failed : Nat
  edits : List (Nat × Nat)
deriving DecidableEq, Repr

/-- One iteration body of the delivery loop (`main.py:638-745`): update the
counters for the attempt's outcome and, when control reaches the check at
`main.py:732` and `(success_count + failed_count) % 10 == 0`, append a
progress edit. -/
def stepAttempt (acc : LoopAcc) (r : AttemptResult) : LoopAcc :=
  match r with
  | .sent =>
    let s := acc.success + 1
    if (s + acc.failed) % 10 = 0 then ⟨s, acc.failed, acc.edits ++ [(s, acc.failed)]⟩
    else ⟨s, acc.failed, acc.edits⟩
  | .sendFail =>
    let f := acc.failed + 1
    if (acc.success + f) % 10 = 0 then ⟨acc.success, f, acc.edits ++ [(acc.success, f)]⟩
    else ⟨acc.success, f, acc.edits⟩
  | .raised => ⟨acc.success, acc.failed + 1, acc.edits⟩

/-- The `for user in users_collection.find()` loop (`main.py:625-745`).
`cancelFlag i` is the value of `broadcast_cancelled` observed at the check
before the `i`-th delivery; `outcome u` the attempt result for user `u`;
`proc` accumulates processed users (reversed).  Returns the counters, the
users actually attempted, and whether the loop exited via the cancel
branch. -/
def broadcastLoop {α : Type} (outcome : α → AttemptResult) (cancelFlag : Nat → Bool) :
    List α → Nat → LoopAcc → List α → LoopAcc × List α × Bool
  | [], _, acc, proc => (acc, proc.reverse, false)
  | u :: rest, i, acc, proc =>
    if cancelFlag i then (acc, proc.reverse, true)
    else broadcastLoop outcome cancelFlag rest (i + 1) (stepAttempt acc (outcome u)) (u :: proc)

/-- How `run_broadcast` exited. -/
inductive ExitKind
  | completed
  | cancelledExit
  | errored
deriving DecidableEq, Repr

/-- The figures of the final or cancellation report edit:
`Sent to`, `Success`, `Failed`. -/
structure Report where
  sentTo : Nat
  success : Nat
  failed : Nat
deriving DecidableEq, Repr

/-- Everything observable about one `run_broadcast` call: exit path, the
report edit (absent on the error path, which replies a generic apology
without counts), the users attempted, the in-loop progress edits, and the
values of the globals `broadcast_active` / `broadcast_cancelled` after the
`finally` block (`main.py:758-761`). -/
structure RunResult (α : Type) where
  exit : ExitKind
  report : Option Report
  processed : List α
  edits : List (Nat × Nat)
  broadcast_active : Bool
  broadcast_cancelled : Bool
deriving DecidableEq, Repr

/-- `run_broadcast` (`main.py:596-761`).  The cancel branch
(`main.py:627-636`) reports `success+failed` users reached and resets both
flags before returning; normal completion (`main.py:747-752`) reports
`total_users` (the count taken at entry, here `users.length`); if the final
report edit raises (`finalEditRaises`), the outer handler replies a generic
error and the `finally` block still resets both flags. -/
def run_broadcast {α : Type} (users : List α) (outcome : α → AttemptResult)
    (cancelFlag : Nat → Bool) (finalEditRaises : Bool) : RunResult α :=
  let r := broadcastLoop outcome cancelFlag users 0 ⟨0, 0, []⟩ []
  let acc := r.1
  if r.2.2 then
    ⟨.cancelledExit, some ⟨acc.success + acc.failed, acc.success, acc.failed⟩,
      r.2.1, acc.edits, false, false⟩
  else if finalEditRaises then
    ⟨.errored, none, r.2.1, acc.edits, false, false⟩
  else
    ⟨.completed, some ⟨users.length, acc.success, acc.failed⟩, r.2.1, acc.edits, false, false⟩

/-! ### The `/broadcast`, `/fcast` entry handlers (`main.py:764-842`) -/

/-- The process-wide broadcast state visible to the entry handlers: the two
global flags, plus the running instance's loop-local counters (which no
entry handler can touch — they are locals of the background coroutine). -/
structure BotState where
  broadcast_active : Bool
  broadcast_cancelled : Bool
  runSuccess : Nat
  runFailed : Nat
deriving DecidableEq, Repr

/-- Replies of the `/broadcast` and `/fcast` entry handlers. -/
inductive EntryReply
  | ownerOnly
  | alreadyInProgress
  | usageBroadcast
  | usageFcast
deriving DecidableEq, Repr

/-- Result of an entry handler: the (possibly unchanged) state, the reply
sent, and whether a new background run was created. -/
structure EntryOut where
  state : BotState
  reply : Option EntryReply
  startedRun : Bool
deriving DecidableEq, Repr

/-- The `broadcast` handler (`main.py:764-806`) after `@restricted`: owner
check, then the `broadcast_active` guard (`main.py:777-779`), then the
reply-or-args requirement, then task creation. -/
def broadcast (st : BotState) (isOwner hasReply : Bool) (args : List String) : EntryOut :=
  if !isOwner then ⟨st, some .ownerOnly, false⟩
  else if st.broadcast_active then ⟨st, some .alreadyInProgress, false⟩
  else if !hasReply && args.isEmpty then ⟨st, some .usageBroadcast, false⟩
  else ⟨st, none, true⟩

/-- The `fcast` handler (`main.py:810-842`): owner check, the
`broadcast_active` guard (`main.py:823-825`), then the reply-to requirement,
then task creation. -/
def fcast (st : BotState) (isOwner hasReply : Bool) : EntryOut :=
  if !isOwner then ⟨st, some .ownerOnly, false⟩
  else if st.broadcast_active then ⟨st, some .alreadyInProgress, false⟩
  else if !hasReply then ⟨st, some .usageFcast, false⟩
  else ⟨st, none, true⟩

/-! ### The `/start` handler and the User Directory (`main.py:189-248`) -/

/-- A document of `users_collection` (`main.py:200-205`). -/
structure UserRec where
  user_id : Nat
  username : String
  first_name : String
  date_added : Nat
deriving DecidableEq, Repr

/-- What `/start` replies after the (unconditional) directory insertion. -/
inductive StartReply
  | welcome
  | verificationPrompt
deriving DecidableEq, Repr

/-- The `start` handler (`main.py:189-248`): look the user up by `user_id`,
insert if absent, and only then branch on verification.  `verified` is the
`check_all_memberships` outcome; the insertion does not depend on it. -/
def start (dir : List UserRec) (u : UserRec)
    (requiresVerification verified : Bool) : List UserRec × StartReply :=
  let dir' := if dir.any (fun r => r.user_id = u.user_id) then dir else dir ++ [u]
  let reply :=
    if !requiresVerification then StartReply.welcome
    else if verified then StartReply.welcome
    else StartReply.verificationPrompt
  (dir', reply)

/-! ### Derived definitions used in the statements below -/

/-- Number of successful attempts in a list of outcomes. -/
def countSent (rs : List AttemptResult) : Nat :=
  rs.countP (fun r => decide (r = AttemptResult.sent))

/-- Number of failed attempts (both exception routes) in a list of outcomes. -/
def countFailed (rs : List AttemptResult) : Nat :=
  rs.countP (fun r => decide (r ≠ AttemptResult.sent))

/-- Folding the loop body over a list of outcomes. -/
def runAttempts (acc : LoopAcc) (rs : List AttemptResult) : LoopAcc :=
  rs.foldl stepAttempt acc

/-- The Lecture Catalog invariant on one stored command name: a nonempty,
all-lowercase (hence all-letters, never slash-leading) identifier. -/
def validCommandName (s : String) : Prop :=
  s.data ≠ [] ∧ ∀ c ∈ s.data, c.isLower = true

/-- The Lecture Catalog invariant: every stored command name is a lowercase
alphabetic identifier. -/
def catalogInv (cat : List LectureCmd) : Prop :=
  ∀ e ∈ cat, validCommandName e.command

instance (s : String) : Decidable (validCommandName s) := by
  unfold validCommandName
  infer_instance

instance (cat : List LectureCmd) : Decidable (catalogInv cat) := by
  unfold catalogInv
  infer_instance

/-! ### Helper lemmas about the delivery loop -/

theorem countSent_add_countFailed (rs : List AttemptResult) :
    countSent rs + countFailed rs = rs.length := by
  induction rs with
  | nil => rfl
  | cons r rest ih =>
    cases r <;> simp [countSent, countFailed, List.countP_cons] at ih ⊢ <;> omega

theorem countSent_cons (r : AttemptResult) (rs : List AttemptResult) :
    countSent (r :: rs) = (if r = AttemptResult.sent then 1 else 0) + countSent rs := by
  cases r <;> simp [countSent, List.countP_cons, Nat.add_comm]

theorem countFailed_cons (r : AttemptResult) (rs : List AttemptResult) :
    countFailed (r :: rs) = (if r = AttemptResult.sent then 0 else 1) + countFailed rs := by
  cases r <;> simp [countFailed, List.countP_cons, Nat.add_comm]

theorem stepAttempt_success (acc : LoopAcc) (r : AttemptResult) :
    (stepAttempt acc r).success =
      acc.success + (if r = AttemptResult.sent then 1 else 0) := by
  cases r <;> simp only [stepAttempt] <;> first
    | rfl
    | (split <;> simp)

theorem stepAttempt_failed (acc : LoopAcc) (r : AttemptResult) :
    (stepAttempt acc r).failed =
      acc.failed + (if r = AttemptResult.sent then 0 else 1) := by
  cases r <;> simp only [stepAttempt] <;> first
    | rfl
    | (split <;> simp)

theorem stepAttempt_edits (acc : LoopAcc) (r : AttemptResult) :
    ∃ t, (stepAttempt acc r).edits = acc.edits ++ t := by
  cases r <;> simp only [stepAttempt]
  case sent => split
               · exact ⟨_, rfl⟩
               · exact ⟨[], by simp⟩
  case sendFail => split
                   · exact ⟨_, rfl⟩
                   · exact ⟨[], by simp⟩
  case raised => exact ⟨[], by simp⟩

@[simp] theorem runAttempts_nil (acc : LoopAcc) : runAttempts acc [] = acc := rfl

@[simp] theorem runAttempts_cons (acc : LoopAcc) (r : AttemptResult) (rs : List AttemptResult) :
    runAttempts acc (r :: rs) = runAttempts (stepAttempt acc r) rs := rfl

theorem runAttempts_append (acc : LoopAcc) (rs ts : List AttemptResult) :
    runAttempts acc (rs ++ ts) = runAttempts (runAttempts acc rs) ts := by
  simp [runAttempts, List.foldl_append]

theorem runAttempts_success (rs : List AttemptResult) :
    ∀ acc : LoopAcc, (runAttempts acc rs).success = acc.success + countSent rs := by
  induction rs with
  | nil => intro acc; simp [countSent]
  | cons r rest ih =>
    intro acc
    rw [runAttempts_cons, ih, stepAttempt_success, countSent_cons]
    omega

theorem runAttempts_failed (rs : List AttemptResult) :
    ∀ acc : LoopAcc, (runAttempts acc rs).failed = acc.failed + countFailed rs := by
  induction rs with
  | nil => intro acc; simp [countFailed]
  | cons r rest ih =>
    intro acc
    rw [runAttempts_cons, ih, stepAttempt_failed, countFailed_cons]
    omega

theorem runAttempts_edits_suffix (rs : List AttemptResult) :
    ∀ acc : LoopAcc, ∃ t, (runAttempts acc rs).edits = acc.edits ++ t := by
  induction rs with
  | nil => intro acc; exact ⟨[], by simp⟩
  | cons r rest ih =>
    intro acc
    obtain ⟨t₁, h₁⟩ := stepAttempt_edits acc r
    obtain ⟨t₂, h₂⟩ := ih (stepAttempt acc r)
    exact ⟨t₁ ++ t₂, by rw [runAttempts_cons, h₂, h₁, List.append_assoc]⟩

theorem broadcastLoop_no_cancel {α : Type} (outcome : α → AttemptResult) (cancelFlag : Nat → Bool) :
    ∀ (users : List α) (i : Nat) (acc : LoopAcc) (proc : List α),
      (∀ j, j < users.length → cancelFlag (i + j) = false) →
      broadcastLoop outcome cancelFlag users i acc proc =
        (runAttempts acc (users.map outcome), proc.reverse ++ users, false) := by
  intro users
  induction users with
  | nil => intro i acc proc _; simp [broadcastLoop]
  | cons u rest ih =>
    intro i acc proc h
    have h0 : cancelFlag i = false := by simpa using h 0 (by simp)
    have hrest : ∀ j, j < rest.length → cancelFlag (i + 1 + j) = false := by
      intro j hj
      have hx := h (j + 1) (by simp; omega)
      have : i + (j + 1) = i + 1 + j := by omega
      rwa [this] at hx
    simp only [broadcastLoop, h0, Bool.false_eq_true, if_false]
    rw [ih (i + 1) (stepAttempt acc (outcome u)) (u :: proc) hrest]
    simp [List.reverse_cons, List.append_assoc]

theorem broadcastLoop_cancel {α : Type} (outcome : α → AttemptResult) (cancelFlag : Nat → Bool) :
    ∀ (users : List α) (k i : Nat) (acc : LoopAcc) (proc : List α),
      cancelFlag (i + k) = true → (∀ j, j < k → cancelFlag (i + j) = false) →
      k < users.length →
      broadcastLoop outcome cancelFlag users i acc proc =
        (runAttempts acc ((users.take k).map outcome), proc.reverse ++ users.take k, true) := by
  intro users
  induction users with
  | nil => intro k i acc proc _ _ hlen; simp at hlen
  | cons u rest ih =>
    intro k i acc proc hk hmin hlen
    cases k with
    | zero =>
      have h0 : cancelFlag i = true := by simpa using hk
      simp [broadcastLoop, h0]
    | succ k' =>
      have h0 : cancelFlag i = false := by simpa using hmin 0 (Nat.succ_pos k')
      simp only [broadcastLoop, h0, Bool.false_eq_true, if_false]
      have hk' : cancelFlag (i + 1 + k') = true := by
        have he : i + (k' + 1) = i + 1 + k' := by omega
        rwa [he] at hk
      have hmin' : ∀ j, j < k' → cancelFlag (i + 1 + j) = false := by
        intro j hj
        have hx := hmin (j + 1) (by omega)
        have he : i + (j + 1) = i + 1 + j := by omega
        rwa [he] at hx
      have hlen' : k' < rest.length := by simpa using Nat.lt_of_succ_lt_succ hlen
      rw [ih k' (i + 1) (stepAttempt acc (outcome u)) (u :: proc) hk' hmin' hlen']
      simp [List.reverse_cons, List.append_assoc]

/-- Claim C1: for every broadcast/forward run, if the cancel flag is first
observed set at the check before the `k`-th delivery, the engine stops
there — exactly the first `k` users were attempted — and the cancellation
report tallies exactly those `k` users; and on every exit path (normal
completion, cancellation, unhandled error) both run-state flags are reset
to Idle. -/
theorem run_broadcast_cancellation {α : Type} (users : List α) (outcome : α → AttemptResult)
    (cancelFlag : Nat → Bool) (finalEditRaises : Bool) (k : Nat)
    (hk : cancelFlag k = true) (hmin : ∀ j, j < k → cancelFlag j = false)
    (hlen : k < users.length) :
    ((run_broadcast users outcome cancelFlag finalEditRaises).exit = ExitKind.cancelledExit ∧
     (run_broadcast users outcome cancelFlag finalEditRaises).processed = users.take k ∧
     (run_broadcast users outcome cancelFlag finalEditRaises).report =
       some ⟨k, countSent ((users.take k).map outcome),
             countFailed ((users.take k).map outcome)⟩ ∧
     (run_broadcast users outcome cancelFlag finalEditRaises).broadcast_active = false ∧
     (run_broadcast users outcome cancelFlag finalEditRaises).broadcast_cancelled = false) ∧
    (∀ (β : Type) (users' : List β) (outcome' : β → AttemptResult) (cf : Nat → Bool) (fe : Bool),
      (run_broadcast users' outcome' cf fe).broadcast_active = false ∧
      (run_broadcast users' outcome' cf fe).broadcast_cancelled = false) := by
  constructor
  · have hloop := broadcastLoop_cancel outcome cancelFlag users k 0 ⟨0, 0, []⟩ []
      (by simpa using hk) (by intro j hj; simpa using hmin j hj) hlen
    have hs : (runAttempts ⟨0, 0, []⟩ ((users.take k).map outcome)).success =
        countSent ((users.take k).map outcome) := by
      simpa using runAttempts_success ((users.take k).map outcome) ⟨0, 0, []⟩
    have hf : (runAttempts ⟨0, 0, []⟩ ((users.take k).map outcome)).failed =
        countFailed ((users.take k).map outcome) := by
      simpa using runAttempts_failed ((users.take k).map outcome) ⟨0, 0, []⟩
    have hsum : countSent ((users.take k).map outcome) +
        countFailed ((users.take k).map outcome) = k := by
      rw [countSent_add_countFailed, List.length_map, List.length_take]
      omega
    simp only [run_broadcast, hloop]
    refine ⟨rfl, by simp, ?_, rfl, rfl⟩
    rw [List.map_take] at hs hf hsum
    simp [hs, hf, hsum]
  · intro β users' outcome' cf fe
    unfold run_broadcast
    dsimp only
    split
    · exact ⟨rfl, rfl⟩
    · split
      · exact ⟨rfl, rfl⟩
      · exact ⟨rfl, rfl⟩

/-- Witness for C1 at a concrete input: five users, all sends succeeding,
cancel flag raised from the third check on. -/
theorem run_broadcast_cancellation_witness :
    (run_broadcast [0, 1, 2, 3, 4] (fun _ => AttemptResult.sent)
        (fun i => decide (3 ≤ i)) false).report = some ⟨3, 3, 0⟩ ∧
    (run_broadcast [0, 1, 2, 3, 4] (fun _ => AttemptResult.sent)
        (fun i => decide (3 ≤ i)) false).processed = [0, 1, 2] := by
  have h := run_broadcast_cancellation [0, 1, 2, 3, 4] (fun _ => AttemptResult.sent)
    (fun i => decide (3 ≤ i)) false 3 (by decide)
    (by intro j hj; simpa using hj) (by decide)
  obtain ⟨⟨_, hp, hr, _, _⟩, _⟩ := h
  refine ⟨?_, by simpa using hp⟩
  rw [hr]
  rfl

/-- Claim C2: a run in which every per-user delivery attempt raises (either
exception route) still completes, every user is processed, and the final
report is `success = 0`, `failed = total users`. -/
theorem run_broadcast_all_fail {α : Type} (users : List α) (outcome : α → AttemptResult)
    (h : ∀ u ∈ users, outcome u ≠ AttemptResult.sent) :
    (run_broadcast users outcome (fun _ => false) false).exit = ExitKind.completed ∧
    (run_broadcast users outcome (fun _ => false) false).report =
      some ⟨users.length, 0, users.length⟩ ∧
    (run_broadcast users outcome (fun _ => false) false).processed = users ∧
    (run_broadcast users outcome (fun _ => false) false).broadcast_active = false ∧
    (run_broadcast users outcome (fun _ => false) false).broadcast_cancelled = false := by
  have hloop := broadcastLoop_no_cancel outcome (fun _ => false) users 0 ⟨0, 0, []⟩ []
    (by intro j _; rfl)
  have hs : countSent (users.map outcome) = 0 := by
    apply List.countP_eq_zero.2
    intro r hr
    obtain ⟨u, hu, rfl⟩ := List.mem_map.1 hr
    simpa using h u hu
  have hf : countFailed (users.map outcome) = users.length := by
    have := countSent_add_countFailed (users.map outcome)
    rw [hs, List.length_map] at this
    omega
  have hs' : (runAttempts ⟨0, 0, []⟩ (users.map outcome)).success = 0 := by
    simpa [hs] using runAttempts_success (users.map outcome) ⟨0, 0, []⟩
  have hf' : (runAttempts ⟨0, 0, []⟩ (users.map outcome)).failed = users.length := by
    simpa [hf] using runAttempts_failed (users.map outcome) ⟨0, 0, []⟩
  simp only [run_broadcast, hloop]
  refine ⟨rfl, ?_, by simp, rfl, rfl⟩
  simp [hs', hf']

/-- Witness for C2: three users, every attempt failing (one through each
exception route). -/
theorem run_broadcast_all_fail_witness :
    (run_broadcast [10, 11, 12]
        (fun u => if u = 10 then AttemptResult.sendFail else AttemptResult.raised)
        (fun _ => false) false).report = some ⟨3, 0, 3⟩ := by
  have h := run_broadcast_all_fail [10, 11, 12]
    (fun u => if u = 10 then AttemptResult.sendFail else AttemptResult.raised)
    (by intro u hu; fin_cases hu <;> decide)
  simpa using h.2.1

theorem countSent_append (rs ts : List AttemptResult) :
    countSent (rs ++ ts) = countSent rs + countSent ts := by
  simp [countSent, List.countP_append]

/-- If the `(n+1)`-th attempt closes a group of 10 and its outcome reaches
the progress check (it did not raise past `send_to_user`), the snapshot of
the counters after it is recorded as a progress edit. -/
theorem runAttempts_edits_mem (rs : List AttemptResult) (n : Nat)
    (hn : n < rs.length) (h10 : (n + 1) % 10 = 0)
    (hr : rs.getD n AttemptResult.raised ≠ AttemptResult.raised) :
    (countSent (rs.take (n + 1)), (n + 1) - countSent (rs.take (n + 1))) ∈
      (runAttempts ⟨0, 0, []⟩ rs).edits := by
  have hAs : (runAttempts ⟨0, 0, []⟩ (rs.take n)).success = countSent (rs.take n) := by
    simpa using runAttempts_success (rs.take n) ⟨0, 0, []⟩
  have hAf : (runAttempts ⟨0, 0, []⟩ (rs.take n)).failed = countFailed (rs.take n) := by
    simpa using runAttempts_failed (rs.take n) ⟨0, 0, []⟩
  set A := runAttempts ⟨0, 0, []⟩ (rs.take n) with hA
  have hsum : A.success + A.failed = n := by
    rw [hAs, hAf, countSent_add_countFailed, List.length_take]
    omega
  have htake : rs.take (n + 1) = rs.take n ++ [rs[n]] := by
    rw [List.take_succ]
    simp [List.getElem?_eq_getElem hn]
  have hgetD : rs.getD n AttemptResult.raised = rs[n] := by
    simp [List.getD, List.getElem?_eq_getElem hn]
  rw [hgetD] at hr
  have hdecomp : rs = rs.take n ++ rs[n] :: rs.drop (n + 1) := by
    conv_lhs => rw [← List.take_append_drop n rs]
    rw [List.drop_eq_getElem_cons hn]
  have hsplit : runAttempts ⟨0, 0, []⟩ rs
      = runAttempts (stepAttempt A rs[n]) (rs.drop (n + 1)) := by
    conv_lhs => rw [hdecomp]
    rw [runAttempts_append, runAttempts_cons, hA]
  obtain ⟨t, ht⟩ := runAttempts_edits_suffix (rs.drop (n + 1)) (stepAttempt A rs[n])
  rw [hsplit, ht]
  apply List.mem_append_left
  have hcs : countSent (rs.take (n + 1)) =
      A.success + (if rs[n] = AttemptResult.sent then 1 else 0) := by
    rw [htake, countSent_append, hAs]
    cases hcase : rs[n] <;> simp [countSent, List.countP_cons, hcase]
  cases hcase : rs[n] with
  | raised => exact absurd hcase hr
  | sent =>
    rw [hcase] at hcs
    simp only [if_pos rfl] at hcs
    have hcond : (A.success + 1 + A.failed) % 10 = 0 := by
      have : A.success + 1 + A.failed = n + 1 := by omega
      rw [this]; exact h10
    simp only [stepAttempt, hcond, if_pos rfl]
    have h1 : countSent (rs.take (n + 1)) = A.success + 1 := hcs
    rw [h1, show n + 1 - (A.success + 1) = A.failed from by omega]
    simp
  | sendFail =>
    rw [hcase] at hcs
    simp only [reduceCtorEq, if_neg, if_false] at hcs
    have hcond : (A.success + (A.failed + 1)) % 10 = 0 := by
      have : A.success + (A.failed + 1) = n + 1 := by omega
      rw [this]; exact h10
    simp only [stepAttempt, hcond, if_pos rfl]
    have h1 : countSent (rs.take (n + 1)) = A.success := by omega
    rw [h1, show n + 1 - A.success = A.failed + 1 from by omega]
    simp

/-- Claim C9, counterexample to the statement as written: a 10-user forward
run in which every forward raises completes 10 delivery attempts
(`failed = 10` in the final report), yet the progress message is never
edited — because a forward-mode failure is caught at the loop's per-user
handler, which skips that iteration's every-10 check. -/
theorem run_broadcast_progress_counterexample :
    (run_broadcast (List.range 10) (fun _ => AttemptResult.raised)
        (fun _ => false) false).report = some ⟨10, 0, 10⟩ ∧
    (run_broadcast (List.range 10) (fun _ => AttemptResult.raised)
        (fun _ => false) false).edits = [] := by
  decide

/-- Claim C9 (amended): during every run without cancellation, after every
10 completed delivery attempts whose closing attempt reached the progress
check (i.e. did not raise past `send_to_user`; broadcast-mode attempts on
recognised payload kinds always do), the progress message is edited in
place with the updated counts; in particular a 25-user broadcast with no
failures edits after the 10th and 20th sends and reports
success 25, failed 0. -/
theorem run_broadcast_progress_edits :
    (∀ {α : Type} (users : List α) (outcome : α → AttemptResult) (n : Nat),
      n < users.length → (n + 1) % 10 = 0 →
      (users.map outcome).getD n AttemptResult.raised ≠ AttemptResult.raised →
      (countSent ((users.map outcome).take (n + 1)),
        (n + 1) - countSent ((users.map outcome).take (n + 1))) ∈
        (run_broadcast users outcome (fun _ => false) false).edits) ∧
    (run_broadcast (List.range 25) (fun _ => AttemptResult.sent)
        (fun _ => false) false).edits = [(10, 0), (20, 0)] ∧
    (run_broadcast (List.range 25) (fun _ => AttemptResult.sent)
        (fun _ => false) false).report = some ⟨25, 25, 0⟩ := by
  refine ⟨?_, by decide, by decide⟩
  intro α users outcome n hn h10 hr
  have hloop := broadcastLoop_no_cancel outcome (fun _ => false) users 0 ⟨0, 0, []⟩ []
    (by intro j _; rfl)
  simp only [run_broadcast, hloop, Bool.false_eq_true, if_false]
  exact runAttempts_edits_mem (users.map outcome) n (by simpa using hn) h10 hr

/-- Witness for the amended C9: 12 users, all sends succeeding; the edit
after the 10th attempt is present with counts (10, 0). -/
theorem run_broadcast_progress_edits_witness :
    (10, 0) ∈ (run_broadcast (List.range 12) (fun _ => AttemptResult.sent)
        (fun _ => false) false).edits := by
  have h := run_broadcast_progress_edits.1 (List.range 12)
    (fun _ => AttemptResult.sent) 9 (by decide) (by decide) (by decide)
  have he : countSent (((List.range 12).map (fun _ => AttemptResult.sent)).take (9 + 1))
      = 10 := by decide
  rw [he] at h
  simpa using h

/-- With the cancel flag never set, every user in the directory is
attempted, whichever way the run ends. -/
theorem run_broadcast_processed_no_cancel {α : Type} (users : List α)
    (outcome : α → AttemptResult) (fe : Bool) :
    (run_broadcast users outcome (fun _ => false) fe).processed = users := by
  have hloop := broadcastLoop_no_cancel outcome (fun _ => false) users 0 ⟨0, 0, []⟩ []
    (by intro j _; rfl)
  simp only [run_broadcast, hloop, Bool.false_eq_true, if_false]
  split <;> simp

/-- Claim C3: while a run is active, a second `/broadcast` or `/fcast` from
the owner is rejected with the already-in-progress reply, starts no new
run, and leaves the entire broadcast state — the running instance's
counters and the cancel flag included — unchanged. -/
theorem second_broadcast_rejected (st : BotState) (hasReply : Bool) (args : List String)
    (hactive : st.broadcast_active = true) :
    broadcast st true hasReply args = ⟨st, some EntryReply.alreadyInProgress, false⟩ ∧
    fcast st true hasReply = ⟨st, some EntryReply.alreadyInProgress, false⟩ := by
  constructor <;> simp [broadcast, fcast, hactive]

/-- Witness for C3: a state with an active run and live counters 7/2. -/
theorem second_broadcast_rejected_witness :
    broadcast ⟨true, false, 7, 2⟩ true true ["hi"]
      = ⟨⟨true, false, 7, 2⟩, some EntryReply.alreadyInProgress, false⟩ ∧
    fcast ⟨true, false, 7, 2⟩ true true
      = ⟨⟨true, false, 7, 2⟩, some EntryReply.alreadyInProgress, false⟩ :=
  second_broadcast_rejected ⟨true, false, 7, 2⟩ true ["hi"] rfl

/-- Claim C4: `check_all_memberships` is true iff every configured required
chat individually reports membership; with zero configured chats it returns
true for any user while performing no lookup; a single missing chat yields
false. -/
theorem check_all_memberships_spec (channelId groupId : String) (member : String → Bool) :
    ((check_all_memberships channelId groupId member).1 = true ↔
      ((channelId ≠ "" → member channelId = true) ∧
       (groupId ≠ "" → member groupId = true))) ∧
    (channelId = "" → groupId = "" →
      check_all_memberships channelId groupId member = (true, [])) ∧
    (channelId ≠ "" → member channelId = false →
      (check_all_memberships channelId groupId member).1 = false) ∧
    (groupId ≠ "" → member groupId = false →
      (check_all_memberships channelId groupId member).1 = false) := by
  unfold check_all_memberships
  by_cases hc : channelId = "" <;> by_cases hg : groupId = "" <;>
    simp [hc, hg]
  exact ⟨fun h1 h2 => absurd h2 (by simp [h1]), fun h1 _ => h1⟩

/-- Witness for C4: both configured and the group missing yields false; no
configuration yields true with an empty lookup list. -/
theorem check_all_memberships_spec_witness :
    check_all_memberships "" "" (fun _ => false) = (true, []) ∧
    (check_all_memberships "@ch" "@gr" (fun c => decide (c = "@ch"))).1 = false := by
  constructor
  · exact (check_all_memberships_spec "" "" (fun _ => false)).2.1 rfl rfl
  · exact (check_all_memberships_spec "@ch" "@gr" (fun c => decide (c = "@ch"))).2.2.2
      (by decide) (by decide)

theorem statusIsMember_iff (s : String) :
    statusIsMember s = true ↔
      (s = "member" ∨ s = "administrator" ∨ s = "creator" ∨ s = "restricted") := by
  simp [statusIsMember, memberStatuses]

/-- Claim C5: a membership lookup returns true exactly when the status
reported by the first attempt whose lookup (direct, or the resolve-chat
fallback) succeeded is one of member/administrator/creator/restricted; and
when all 3 retry attempts fail on both routes it returns false. -/
theorem check_membership_spec (att : Nat → LookupOutcome) :
    (∀ (k : Nat) (s : String), k < 3 →
      (∀ j, j < k → att j = LookupOutcome.bothFail) →
      (att k = LookupOutcome.primaryOk s ∨ att k = LookupOutcome.fallbackOk s) →
      (check_membership att = true ↔
        (s = "member" ∨ s = "administrator" ∨ s = "creator" ∨ s = "restricted"))) ∧
    ((∀ j, j < 3 → att j = LookupOutcome.bothFail) → check_membership att = false) := by
  constructor
  · intro k s hk hmin hsel
    interval_cases k
    · rcases hsel with h | h <;>
        simp [check_membership, checkMembershipFrom, maxRetries, h, statusIsMember_iff]
    · have h0 := hmin 0 (by omega)
      rcases hsel with h | h <;>
        simp [check_membership, checkMembershipFrom, maxRetries, h0, h, statusIsMember_iff]
    · have h0 := hmin 0 (by omega)
      have h1 := hmin 1 (by omega)
      rcases hsel with h | h <;>
        simp [check_membership, checkMembershipFrom, maxRetries, h0, h1, h, statusIsMember_iff]
  · intro h
    simp [check_membership, checkMembershipFrom, maxRetries,
      h 0 (by omega), h 1 (by omega), h 2 (by omega)]

/-- Witness for C5: a first attempt failing both routes and a second
attempt reporting "member" verifies; three double failures yield
not-a-member. -/
theorem check_membership_spec_witness :
    check_membership
      (fun i => if i = 0 then LookupOutcome.bothFail else LookupOutcome.primaryOk "member")
      = true ∧
    check_membership (fun _ => LookupOutcome.bothFail) = false := by
  constructor
  · exact ((check_membership_spec _).1 1 "member" (by omega)
      (by intro j hj; simp [Nat.lt_one_iff.1 hj]) (Or.inl (by simp))).2 (Or.inl rfl)
  · exact (check_membership_spec _).2 (fun j _ => rfl)

/-- Claim C10: `/start` inserts an absent user into the directory
regardless of the verification outcome (the insertion precedes the
membership check and does not depend on it); the user is then enumerated as
a recipient by subsequent broadcast/forward runs, and later `/start` calls
never remove a directory entry. -/
theorem start_inserts_before_verification (dir : List UserRec) (u : UserRec)
    (h : u.user_id ∉ dir.map (fun r => r.user_id)) :
    (∀ rv v : Bool, (start dir u rv v).1 = dir ++ [u]) ∧
    (∀ rv v : Bool, u ∈ (start dir u rv v).1) ∧
    (∀ rv v : Bool, ∀ (outcome : UserRec → AttemptResult) (fe : Bool),
      u ∈ (run_broadcast (start dir u rv v).1 outcome (fun _ => false) fe).processed) ∧
    (∀ (dir₀ : List UserRec) (u' : UserRec) (rv v : Bool),
      u ∈ dir₀ → u ∈ (start dir₀ u' rv v).1) := by
  have hany : (dir.any (fun r => r.user_id = u.user_id)) = false := by
    rw [List.any_eq_false]
    intro r hr hid
    exact h (List.mem_map.2 ⟨r, hr, by simpa using hid⟩)
  have hins : ∀ rv v : Bool, (start dir u rv v).1 = dir ++ [u] := by
    intro rv v
    simp [start, hany]
  refine ⟨hins, ?_, ?_, ?_⟩
  · intro rv v
    rw [hins rv v]
    exact List.mem_append_right dir (List.mem_singleton.2 rfl)
  · intro rv v outcome fe
    rw [run_broadcast_processed_no_cancel, hins rv v]
    exact List.mem_append_right dir (List.mem_singleton.2 rfl)
  · intro dir₀ u' rv v hmem
    simp only [start]
    split
    · exact hmem
    · exact List.mem_append_left _ hmem

/-- Witness for C10: a fresh user joins a two-user directory and is reached
by the following run. -/
theorem start_inserts_before_verification_witness :
    (start [⟨1, "a", "A", 0⟩, ⟨2, "b", "B", 0⟩] ⟨3, "c", "C", 5⟩ true false).1
      = [⟨1, "a", "A", 0⟩, ⟨2, "b", "B", 0⟩, ⟨3, "c", "C", 5⟩] ∧
    (⟨3, "c", "C", 5⟩ : UserRec) ∈
      (run_broadcast (start [⟨1, "a", "A", 0⟩, ⟨2, "b", "B", 0⟩] ⟨3, "c", "C", 5⟩ true false).1
        (fun _ => AttemptResult.sent) (fun _ => false) false).processed := by
  have h := start_inserts_before_verification [⟨1, "a", "A", 0⟩, ⟨2, "b", "B", 0⟩]
    ⟨3, "c", "C", 5⟩ (by decide)
  exact ⟨h.1 true false, h.2.2.1 true false (fun _ => AttemptResult.sent) false⟩

/-! ### Character-level facts about the Python `lower`/`isalpha` model -/

theorem uint32_le_iff_toNat_le (a b : UInt32) : a ≤ b ↔ a.toNat ≤ b.toNat := by
  simp [UInt32.le_def, BitVec.le_def, UInt32.toNat]

theorem isUpper_iff (c : Char) : c.isUpper = true ↔ 65 ≤ c.toNat ∧ c.toNat ≤ 90 := by
  simp only [Char.isUpper, Bool.and_eq_true, decide_eq_true_eq]
  constructor
  · intro ⟨h1, h2⟩
    exact ⟨(uint32_le_iff_toNat_le _ _).1 h1, (uint32_le_iff_toNat_le _ _).1 h2⟩
  · intro ⟨h1, h2⟩
    exact ⟨(uint32_le_iff_toNat_le _ _).2 h1, (uint32_le_iff_toNat_le _ _).2 h2⟩

theorem toNat_ofNat_valid {n : Nat} (h : n.isValidChar) : (Char.ofNat n).toNat = n := by
  rw [Char.ofNat, dif_pos h]
  rfl

/-- Lowering a character never yields an ASCII uppercase letter. -/
theorem toLower_isUpper_eq_false (c : Char) : (Char.toLower c).isUpper = false := by
  have hdef : Char.toLower c =
      if c.toNat >= 65 ∧ c.toNat <= 90 then Char.ofNat (c.toNat + 32) else c := rfl
  rw [hdef]
  by_cases h : c.toNat >= 65 ∧ c.toNat <= 90
  · rw [if_pos h, ← Bool.not_eq_true]
    intro hu
    have h2 := (isUpper_iff _).1 hu
    rw [toNat_ofNat_valid (Or.inl (by omega))] at h2
    omega
  · rw [if_neg h, ← Bool.not_eq_true]
    intro hu
    have h2 := (isUpper_iff _).1 hu
    omega

/-! ### Catalog lemmas -/

theorem mem_stripChars {c : Char} {l : List Char} (h : c ∈ stripChars l) : c ∈ l := by
  unfold stripChars at h
  rw [List.mem_reverse] at h
  have h2 := (List.dropWhile_sublist _).subset h
  rw [List.mem_reverse] at h2
  exact (List.dropWhile_sublist _).subset h2

theorem mem_stripLeadingSlash {c : Char} {s : String}
    (h : c ∈ (stripLeadingSlash s).data) : c ∈ s.data := by
  unfold stripLeadingSlash at h
  split at h
  · exact (List.tail_sublist _).subset h
  · exact h

/-- Every character of a normalised command name came out of
`Char.toLower`, hence is never an uppercase letter. -/
theorem normalizeAddName_isUpper_eq_false (raw : String) (c : Char)
    (hc : c ∈ (normalizeAddName raw).data) : c.isUpper = false := by
  have h1 : c ∈ (pyStrip (pyLower raw)).data := mem_stripLeadingSlash hc
  have h2 : c ∈ (pyLower raw).data := mem_stripChars h1
  obtain ⟨c₀, _, rfl⟩ := List.mem_map.1 h2
  exact toLower_isUpper_eq_false c₀

/-- A normalised name accepted by the `isalpha` gate satisfies the catalog
invariant: it is a nonempty all-lowercase identifier. -/
theorem normalizeAddName_valid (raw : String)
    (h : pyIsAlpha (normalizeAddName raw) = true) :
    validCommandName (normalizeAddName raw) := by
  unfold pyIsAlpha at h
  rw [Bool.and_eq_true, Bool.not_eq_true', List.isEmpty_eq_false_iff_exists_mem] at h
  obtain ⟨hne, hall⟩ := h
  constructor
  · obtain ⟨x, hx⟩ := hne
    intro hnil
    rw [hnil] at hx
    exact List.not_mem_nil x hx
  · intro c hc
    have halpha : c.isAlpha = true := by
      rw [List.all_eq_true] at hall
      have h2 := hall c hc
      simp at h2
      exact h2
    have hup : c.isUpper = false := normalizeAddName_isUpper_eq_false raw c hc
    rw [Char.isAlpha, hup] at halpha
    simpa using halpha

theorem mem_upsertCmd {e : LectureCmd} {cat : List LectureCmd} {n l d : String}
    (h : e ∈ upsertCmd cat n l d) : e ∈ cat ∨ e = ⟨n, l, d⟩ := by
  induction cat with
  | nil =>
    simp only [upsertCmd, List.mem_singleton] at h
    exact Or.inr h
  | cons e₀ rest ih =>
    simp only [upsertCmd] at h
    split at h
    · rcases List.mem_cons.1 h with h1 | h1
      · exact Or.inr h1
      · exact Or.inl (List.mem_cons_of_mem _ h1)
    · rcases List.mem_cons.1 h with h1 | h1
      · exact Or.inl (h1 ▸ List.mem_cons_self _ _)
      · rcases ih h1 with h2 | h2
        · exact Or.inl (List.mem_cons_of_mem _ h2)
        · exact Or.inr h2

theorem mem_deleteCmd {e : LectureCmd} {cat : List LectureCmd} {n : String}
    (h : e ∈ (deleteCmd cat n).1) : e ∈ cat := by
  induction cat with
  | nil =>
    simp [deleteCmd] at h
  | cons e₀ rest ih =>
    simp only [deleteCmd] at h
    split at h
    · exact List.mem_cons_of_mem _ h
    · rcases List.mem_cons.1 h with h1 | h1
      · exact h1 ▸ List.mem_cons_self _ _
      · exact List.mem_cons_of_mem _ (ih h1)

theorem findCmd_upsert_self (cat : List LectureCmd) (n l d : String) :
    findCmd (upsertCmd cat n l d) n = some ⟨n, l, d⟩ := by
  induction cat with
  | nil => simp [upsertCmd, findCmd]
  | cons e rest ih =>
    simp only [upsertCmd]
    split
    · simp [findCmd]
    · rename_i he
      simpa [findCmd, List.find?_cons, he] using ih

theorem countP_upsert_self (cat : List LectureCmd) (n l d : String)
    (h : (cat.map (fun e => e.command)).Nodup) :
    (upsertCmd cat n l d).countP (fun e => e.command == n) = 1 := by
  induction cat with
  | nil => simp [upsertCmd]
  | cons e rest ih =>
    rw [List.map_cons, List.nodup_cons] at h
    obtain ⟨hnotin, hrest⟩ := h
    simp only [upsertCmd]
    split
    · rename_i he
      have hzero : rest.countP (fun e' => e'.command == n) = 0 := by
        apply List.countP_eq_zero.2
        intro x hx
        simp only [beq_iff_eq]
        intro hxn
        exact hnotin (he ▸ hxn ▸ List.mem_map.2 ⟨x, hx, rfl⟩)
      simp [List.countP_cons, hzero]
    · rename_i he
      simp [List.countP_cons, he, ih hrest]

theorem keys_upsertCmd (cat : List LectureCmd) (n l d : String) :
    (upsertCmd cat n l d).map (fun e => e.command) =
      if n ∈ cat.map (fun e => e.command) then cat.map (fun e => e.command)
      else cat.map (fun e => e.command) ++ [n] := by
  induction cat with
  | nil => simp [upsertCmd]
  | cons e rest ih =>
    simp only [upsertCmd]
    split
    · rename_i he
      simp [he]
    · rename_i he
      rw [List.map_cons, List.map_cons, ih]
      have hne : ¬ n = e.command := fun hh => he hh.symm
      by_cases hmem : n ∈ rest.map (fun e => e.command) <;>
        simp [hmem, hne]

theorem nodup_keys_upsertCmd (cat : List LectureCmd) (n l d : String)
    (h : (cat.map (fun e => e.command)).Nodup) :
    ((upsertCmd cat n l d).map (fun e => e.command)).Nodup := by
  rw [keys_upsertCmd]
  split
  · exact h
  · rename_i hmem
    simp [List.nodup_append, h, hmem]

theorem intercalate_single (s a : String) : String.intercalate s [a] = a := rfl

/-- A successful owner `add` with three arguments whose normalised name
passes the `isalpha` gate is exactly the catalog upsert. -/
theorem add_lecture_eq_upsert (cat : List LectureCmd) (a l d : String)
    (halpha : pyIsAlpha (normalizeAddName a) = true) :
    add_lecture cat true [a, l, d]
      = (upsertCmd cat (normalizeAddName a) (pyStrip l) d,
         AddReply.added (normalizeAddName a) (pyStrip l) d) := by
  simp [add_lecture, halpha, intercalate_single]

/-- Claim C6: the add operation has upsert semantics by command name —
adding `A` twice leaves exactly one entry for `A`, holding the later link
and description. -/
theorem add_lecture_upsert_semantics (cat : List LectureCmd) (A L1 D1 L2 D2 : String)
    (halpha : pyIsAlpha (normalizeAddName A) = true)
    (hnodup : (cat.map (fun e => e.command)).Nodup) :
    findCmd (add_lecture (add_lecture cat true [A, L1, D1]).1 true [A, L2, D2]).1
        (normalizeAddName A)
      = some ⟨normalizeAddName A, pyStrip L2, D2⟩ ∧
    (add_lecture (add_lecture cat true [A, L1, D1]).1 true [A, L2, D2]).1.countP
        (fun e => e.command == normalizeAddName A) = 1 := by
  rw [add_lecture_eq_upsert cat A L1 D1 halpha]
  rw [add_lecture_eq_upsert _ A L2 D2 halpha]
  exact ⟨findCmd_upsert_self _ _ _ _,
    countP_upsert_self _ _ _ _ (nodup_keys_upsertCmd _ _ _ _ hnodup)⟩

/-- Witness for C6: add "Maths" with link L1, then with link L2; the lookup
returns L2/D2 and the catalog holds exactly one "maths" entry. -/
theorem add_lecture_upsert_semantics_witness :
    findCmd (add_lecture (add_lecture [] true ["Maths", "L1", "D1"]).1
        true ["Maths", "L2", "D2"]).1 "maths" = some ⟨"maths", "L2", "D2"⟩ ∧
    (add_lecture (add_lecture [] true ["Maths", "L1", "D1"]).1
        true ["Maths", "L2", "D2"]).1.countP (fun e => e.command == "maths") = 1 := by
  have h := add_lecture_upsert_semantics [] "Maths" "L1" "D1" "L2" "D2" (by decide) (by decide)
  have e1 : normalizeAddName "Maths" = "maths" := by decide
  have e2 : pyStrip "L2" = "L2" := by decide
  rw [e1, e2] at h
  exact h

/-- Claim C7: the name-validation pipeline preserves the catalog invariant
(lowercase alphabetic identifiers, hence no digits, punctuation, whitespace
or leading slash) under every add and remove operation, and an add whose
normalised name fails the `isalpha` gate leaves the catalog untouched. -/
theorem catalog_invariant_preserved (cat : List LectureCmd) (isOwner : Bool)
    (args : List String) (h : catalogInv cat) :
    catalogInv (add_lecture cat isOwner args).1 ∧
    catalogInv (remove_lecture cat isOwner args).1 ∧
    (pyIsAlpha (normalizeAddName (args.getD 0 "")) = false →
      (add_lecture cat isOwner args).1 = cat) := by
  refine ⟨?_, ?_, ?_⟩
  · unfold add_lecture
    split
    · exact h
    split
    · exact h
    split
    · exact h
    · rename_i hown hlen hcond
      intro e he
      rcases mem_upsertCmd he with h1 | h1
      · exact h e h1
      · rw [h1]
        exact normalizeAddName_valid _ (by simpa using hcond)
  · unfold remove_lecture
    split
    · exact h
    · match args with
      | [] => exact h
      | a0 :: rest =>
        simp only
        split
        · intro e he
          exact h e (mem_deleteCmd he)
        · intro e he
          exact h e (mem_deleteCmd he)
  · intro hfalse
    unfold add_lecture
    split
    · rfl
    split
    · rfl
    split
    · rfl
    · rename_i hown hlen hcond
      rw [hfalse] at hcond
      simp at hcond

/-- Witness for C7: an invariant-satisfying catalog stays valid under an
add (name "Phys" normalises to "phys") and a remove. -/
theorem catalog_invariant_preserved_witness :
    catalogInv (add_lecture [⟨"maths", "L", "D"⟩] true ["Phys", "https", "desc"]).1 ∧
    catalogInv (remove_lecture [⟨"maths", "L", "D"⟩] true ["maths"]).1 ∧
    (add_lecture [⟨"maths", "L", "D"⟩] true ["ph1ys", "https", "desc"]).1
      = [⟨"maths", "L", "D"⟩] := by
  refine ⟨(catalog_invariant_preserved [⟨"maths", "L", "D"⟩] true
      ["Phys", "https", "desc"] (by decide)).1,
    (catalog_invariant_preserved [⟨"maths", "L", "D"⟩] true ["maths"] (by decide)).2.1,
    (catalog_invariant_preserved [⟨"maths", "L", "D"⟩] true
      ["ph1ys", "https", "desc"] (by decide)).2.2 (by decide)⟩

theorem deleteCmd_not_found (cat : List LectureCmd) (n : String)
    (h : n ∉ cat.map (fun e => e.command)) : deleteCmd cat n = (cat, 0) := by
  induction cat with
  | nil => rfl
  | cons e rest ih =>
    rw [List.map_cons, List.mem_cons] at h
    push_neg at h
    have hne : ¬ e.command = n := fun hh => h.1 hh.symm
    simp [deleteCmd, hne, ih h.2]

/-- Claim C8: removing a command name that is not in the catalog replies
"not found" and leaves the catalog exactly as it was. -/
theorem remove_lecture_not_found (cat : List LectureCmd) (a0 : String)
    (rest : List String)
    (h : pyStrip (pyLower a0) ∉ cat.map (fun e => e.command)) :
    remove_lecture cat true (a0 :: rest)
      = (cat, RemoveReply.notFound (pyStrip (pyLower a0))) := by
  simp [remove_lecture, deleteCmd_not_found cat _ h]

/-- Witness for C8: removing "phys" from a catalog holding only "maths". -/
theorem remove_lecture_not_found_witness :
    remove_lecture [⟨"maths", "L", "D"⟩] true ["phys"]
      = ([⟨"maths", "L", "D"⟩], RemoveReply.notFound "phys") := by
  have h := remove_lecture_not_found [⟨"maths", "L", "D"⟩] "phys" [] (by decide)
  have e1 : pyStrip (pyLower "phys") = "phys" := by decide
  rw [e1] at h
  exact h

end Zuddbot
